import Mathlib

/-!
Verification of the restricted-invocation callback registry of the SWE
library: `static_event<Caller, Args...>` (static_event.hpp) and
`concurrent_static_event<Caller, Args...>` (concurrent_static_event.hpp).

The embedding models a callback handle (`void (*)(Args...)`, an
equality-comparable function pointer) as an element of an arbitrary type `α`
with decidable equality, and the semantic effect of calling a handle as a
function `call : α → σ → σ` on an ambient state `σ` (or `α → σ → Except ε σ`
when a callback may raise).  The `_callbacks` vector is a `List α`.
-/

namespace swe

/-- `static_event`: the single-threaded registry.  Its only data member is
`std::vector<callback> _callbacks`, the ordered list of subscribed handles. -/
structure static_event (α : Type) where
  callbacks : List α
deriving DecidableEq

/-- The default constructor `static_event() = default`: the vector starts
empty. -/
def static_event.empty (α : Type) : static_event α :=
  ⟨[]⟩

/-- `operator+=` (subscribe): `_callbacks.push_back(cb)` appends the handle at
the end of the vector, unconditionally. -/
def static_event.subscribe (e : static_event α) (cb : α) : static_event α :=
  ⟨e.callbacks ++ [cb]⟩

/-- `operator-=` (unsubscribe): `std::remove(begin, end, cb)` shifts every
element not equal to `cb` toward the front, preserving their relative order,
and the following `erase(it, end)` drops the tail; together they delete every
occurrence of `cb`, i.e. keep exactly the elements different from `cb`.
(The `if (it != _callbacks.end())` guard only skips an empty `erase`.) -/
def static_event.unsubscribe [DecidableEq α] (e : static_event α) (cb : α) :
    static_event α :=
  ⟨e.callbacks.filter (fun x => x ≠ cb)⟩

/-- The loop body of `operator()`: `for (auto& cb : _callbacks) cb(args...);`
run over an explicit list.  `call cb` is the effect of calling handle `cb` on
the ambient state.  Returns the final state together with the trace of handles
called, front to back. -/
def invokeLoop (call : α → σ → σ) : List α → σ → σ × List α
  | [], s => (s, [])
  | cb :: rest, s =>
    let r := invokeLoop call rest (call cb s)
    (r.1, cb :: r.2)

/-- `operator()` (invoke): iterates `_callbacks` front to back calling each
handle with the arguments.  No statement of the loop touches `_callbacks`
(the callbacks act only on state outside the registry), so the registry is
returned as it was.  Result: (registry after, state after, trace of handles
called in order). -/
def static_event.invoke (e : static_event α) (call : α → σ → σ) (s : σ) :
    static_event α × σ × List α :=
  let r := invokeLoop call e.callbacks s
  (⟨e.callbacks⟩, r.1, r.2)

/-- The loop of `operator()` when a callback may raise: the loop does not
catch anything, so a raising callback terminates the iteration at once and
the fault travels to the invocation site.  Returns the trace of handles
entered and the outcome. -/
def invokeLoopE (call : α → σ → Except ε σ) : List α → σ → List α × Except ε σ
  | [], s => ([], .ok s)
  | cb :: rest, s =>
    match call cb s with
    | .ok s' =>
      let r := invokeLoopE call rest s'
      (cb :: r.1, r.2)
    | .error err => ([cb], .error err)

/-- A sequence of subscribe calls, front to back. -/
def static_event.subscribeAll (e : static_event α) (hs : List α) :
    static_event α :=
  hs.foldl static_event.subscribe e

/-! ### The concurrent variant (`concurrent_static_event.hpp`)

Data members: `std::mutex _mutex` and `std::vector<callback> _callbacks`.
Each operation takes `std::lock_guard<std::mutex> lock(_mutex)` on entry and
releases the mutex when the operation's scope ends; between those two points
its body performs the same mutation as the single-threaded variant.  The
sequential (one caller at a time) semantics below embed those bodies; the
lock itself is modelled by the small-step machine further down. -/

/-- `concurrent_static_event`: the thread-safe registry; its list state is the
`_callbacks` vector (the `_mutex` member holds no sequential data). -/
structure concurrent_static_event (α : Type) where
  callbacks : List α
deriving DecidableEq

/-- The default constructor: the vector starts empty, the mutex unlocked. -/
def concurrent_static_event.empty (α : Type) : concurrent_static_event α :=
  ⟨[]⟩

/-- `operator+=`: under the lock, `_callbacks.push_back(cb)`. -/
def concurrent_static_event.subscribe (e : concurrent_static_event α)
    (cb : α) : concurrent_static_event α :=
  ⟨e.callbacks ++ [cb]⟩

/-- `operator-=`: under the lock, `std::remove` + `erase` of every occurrence
of `cb`, keeping the remaining elements in order. -/
def concurrent_static_event.unsubscribe [DecidableEq α]
    (e : concurrent_static_event α) (cb : α) : concurrent_static_event α :=
  ⟨e.callbacks.filter (fun x => x ≠ cb)⟩

/-- `operator()`: under the lock, the same front-to-back iteration as the
single-threaded variant. -/
def concurrent_static_event.invoke (e : concurrent_static_event α)
    (call : α → σ → σ) (s : σ) : concurrent_static_event α × σ × List α :=
  let r := invokeLoop call e.callbacks s
  (⟨e.callbacks⟩, r.1, r.2)

/-! ### Sequential operation sequences, for comparing the two variants -/

/-- One client operation on a registry. -/
inductive EventOp (α : Type) where
  | sub (cb : α)
  | unsub (cb : α)
  | inv
deriving DecidableEq

/-- Apply one operation to a `static_event`, accumulating the ambient state
and the concatenated trace of all callback invocations so far. -/
def static_event.applyOp [DecidableEq α] (call : α → σ → σ)
    (acc : static_event α × σ × List α) (op : EventOp α) :
    static_event α × σ × List α :=
  match op with
  | .sub cb => (acc.1.subscribe cb, acc.2.1, acc.2.2)
  | .unsub cb => (acc.1.unsubscribe cb, acc.2.1, acc.2.2)
  | .inv =>
    let r := acc.1.invoke call acc.2.1
    (r.1, r.2.1, acc.2.2 ++ r.2.2)

/-- Run a sequence of operations on a `static_event`, starting from the empty
registry, state `s` and an empty trace. -/
def static_event.runOps [DecidableEq α] (call : α → σ → σ)
    (ops : List (EventOp α)) (s : σ) : static_event α × σ × List α :=
  ops.foldl (static_event.applyOp call) (static_event.empty α, s, [])

/-- Apply one operation to a `concurrent_static_event` (sequentially). -/
def concurrent_static_event.applyOp [DecidableEq α] (call : α → σ → σ)
    (acc : concurrent_static_event α × σ × List α) (op : EventOp α) :
    concurrent_static_event α × σ × List α :=
  match op with
  | .sub cb => (acc.1.subscribe cb, acc.2.1, acc.2.2)
  | .unsub cb => (acc.1.unsubscribe cb, acc.2.1, acc.2.2)
  | .inv =>
    let r := acc.1.invoke call acc.2.1
    (r.1, r.2.1, acc.2.2 ++ r.2.2)

/-- Run a sequence of operations on a `concurrent_static_event`, starting from
the empty registry, state `s` and an empty trace. -/
def concurrent_static_event.runOps [DecidableEq α] (call : α → σ → σ)
    (ops : List (EventOp α)) (s : σ) : concurrent_static_event α × σ × List α :=
  ops.foldl (concurrent_static_event.applyOp call) (concurrent_static_event.empty α, s, [])

/-! ### Small-step machine for the concurrent variant

Each operation of `concurrent_static_event` compiles to: acquire `_mutex`
(the `lock_guard` constructor, which blocks until the mutex is free), then a
body of elementary actions on the shared `_callbacks` vector — a single
`push_back` for `operator+=`, a single `remove`/`erase` pass for
`operator-=`, and one call per subscribed handle for `operator()` — and
finally release the mutex (the `lock_guard` destructor at scope end, after
the whole body, hence after the full callback iteration of `operator()`). -/

/-- An elementary action executed while the mutex is held. -/
inductive Action (α : Type) where
  | pushBack (cb : α)
  | removeAll (cb : α)
  | callCb (cb : α)
deriving DecidableEq

/-- Effect of an elementary action on the `_callbacks` vector; calling a
handle does not touch the vector. -/
def applyAction [DecidableEq α] : Action α → List α → List α
  | .pushBack cb, l => l ++ [cb]
  | .removeAll cb, l => l.filter (fun x => x ≠ cb)
  | .callCb _, l => l

/-- The body an operation runs between acquiring and releasing the mutex;
for `operator()` it is the full iteration over the vector as read under the
lock. -/
def criticalBody (op : EventOp α) (cbs : List α) : List (Action α) :=
  match op with
  | .sub cb => [.pushBack cb]
  | .unsub cb => [.removeAll cb]
  | .inv => cbs.map Action.callCb

/-- Control state of one thread: waiting to start its operation (the
`lock_guard` constructor has not returned), inside the critical section with
the given actions still to run, or finished. -/
inductive ThreadState (α : Type) where
  | idle (op : EventOp α)
  | running (rest : List (Action α))
  | done
deriving DecidableEq

/-- Global state: who holds the mutex (if anyone), the shared `_callbacks`
vector, and every thread's control state. -/
structure ConcSystem (α : Type) (n : Nat) where
  lock : Option (Fin n)
  callbacks : List α
  threads : Fin n → ThreadState α

/-- Pointwise update of the thread map. -/
def setThread (ts : Fin n → ThreadState α) (t : Fin n) (v : ThreadState α) :
    Fin n → ThreadState α :=
  fun u => if u = t then v else ts u

/-- One machine step by thread `t`:
* `acquire`: the `lock_guard` constructor returns only when the mutex is
  free; the thread enters its critical section with the body computed from
  the vector as seen under the lock;
* `exec`: a thread inside its critical section runs its next action;
* `release`: the `lock_guard` destructor at scope end frees the mutex it
  holds once the whole body has run. -/
inductive Step [DecidableEq α] : Fin n → ConcSystem α n → ConcSystem α n → Prop where
  | acquire (t : Fin n) (op : EventOp α) (s : ConcSystem α n) :
      s.lock = none → s.threads t = .idle op →
      Step t s ⟨some t, s.callbacks,
        setThread s.threads t (.running (criticalBody op s.callbacks))⟩
  | exec (t : Fin n) (a : Action α) (rest : List (Action α)) (s : ConcSystem α n) :
      s.threads t = .running (a :: rest) →
      Step t s ⟨s.lock, applyAction a s.callbacks,
        setThread s.threads t (.running rest)⟩
  | release (t : Fin n) (s : ConcSystem α n) :
      s.threads t = .running [] → s.lock = some t →
      Step t s ⟨none, s.callbacks, setThread s.threads t .done⟩

/-- A step by some thread. -/
def SysStep [DecidableEq α] (s s' : ConcSystem α n) : Prop :=
  ∃ t, Step t s s'

/-- Reachability by any interleaving of thread steps. -/
def Reachable [DecidableEq α] (s s' : ConcSystem α n) : Prop :=
  Relation.ReflTransGen SysStep s s'

/-- Thread `t` is inside its critical section (between acquiring and
releasing the mutex). -/
def inCritical (s : ConcSystem α n) (t : Fin n) : Prop :=
  match s.threads t with
  | .running _ => True
  | _ => False

/-- An initial state: the mutex is free and every thread is still waiting to
start its operation. -/
def InitState (s : ConcSystem α n) : Prop :=
  s.lock = none ∧ ∀ t, ∃ op, s.threads t = ThreadState.idle op

/-- Lock-ownership invariant: any thread inside its critical section holds
the mutex. -/
def LockInv (s : ConcSystem α n) : Prop :=
  ∀ t, inCritical s t → s.lock = some t

/-- A two-thread scenario exercising the machine: each thread is about to
subscribe handle 0 to an initially empty registry. -/
def demoInit : ConcSystem Nat 2 :=
  ⟨none, [], fun _ => ThreadState.idle (EventOp.sub 0)⟩

/-- `demoInit` after thread 0 acquired the mutex (the `lock_guard`
constructor of its `operator+=` returned). -/
def demoMid : ConcSystem Nat 2 :=
  ⟨some 0, [], setThread demoInit.threads 0 (ThreadState.running [Action.pushBack 0])⟩

/-- `demoMid` after thread 0 performed its `push_back`. -/
def demoAfter : ConcSystem Nat 2 :=
  ⟨some 0, [0], setThread demoMid.threads 0 (ThreadState.running [])⟩

/-! ## Lemmas -/

/-! ### Basic lemmas about the single-threaded registry -/

theorem invokeLoop_trace (call : α → σ → σ) (l : List α) (s : σ) :
    (invokeLoop call l s).2 = l := by
  induction l generalizing s with
  | nil => rfl
  | cons cb rest ih => simp [invokeLoop, ih]

theorem subscribeAll_callbacks (e : static_event α) (hs : List α) :
    (e.subscribeAll hs).callbacks = e.callbacks ++ hs := by
  induction hs generalizing e with
  | nil => simp [static_event.subscribeAll]
  | cons h t ih =>
    show ((e.subscribe h).subscribeAll t).callbacks = e.callbacks ++ h :: t
    rw [ih]
    simp [static_event.subscribe]

theorem invoke_trace (e : static_event α) (call : α → σ → σ) (s : σ) :
    (e.invoke call s).2.2 = e.callbacks := by
  simp [static_event.invoke, invokeLoop_trace]

/-! ### Lemmas about the concurrency machine -/

theorem inCritical_iff (s : ConcSystem α n) (t : Fin n) :
    inCritical s t ↔ ∃ r, s.threads t = ThreadState.running r := by
  unfold inCritical
  cases h : s.threads t <;> simp

theorem initState_lockInv (s : ConcSystem α n) (h : InitState s) : LockInv s := by
  intro t ht
  rcases (inCritical_iff s t).1 ht with ⟨r, hr⟩
  rcases h.2 t with ⟨op, hop⟩
  rw [hop] at hr
  cases hr

theorem step_lockInv [DecidableEq α] {t : Fin n} {s s' : ConcSystem α n}
    (hs : Step t s s') (hinv : LockInv s) : LockInv s' := by
  cases hs with
  | acquire op hg hlock hidle =>
    intro u hu
    rcases (inCritical_iff _ u).1 hu with ⟨r, hr⟩
    by_cases hut : u = t
    · simp [hut]
    · have hsu : s.threads u = ThreadState.running r := by
        simpa [setThread, hut] using hr
      have := hinv u ((inCritical_iff s u).2 ⟨r, hsu⟩)
      rw [hlock] at this
      cases this
  | exec a rest hg hrun =>
    intro u hu
    rcases (inCritical_iff _ u).1 hu with ⟨r, hr⟩
    show s.lock = some u
    by_cases hut : u = t
    · subst hut
      exact hinv u ((inCritical_iff s u).2 ⟨_, hrun⟩)
    · have hsu : s.threads u = ThreadState.running r := by
        simpa [setThread, hut] using hr
      exact hinv u ((inCritical_iff s u).2 ⟨r, hsu⟩)
  | release hg hrun hlock =>
    intro u hu
    rcases (inCritical_iff _ u).1 hu with ⟨r, hr⟩
    by_cases hut : u = t
    · rw [hut] at hr
      simp [setThread] at hr
    · have hsu : s.threads u = ThreadState.running r := by
        simpa [setThread, hut] using hr
      have := hinv u ((inCritical_iff s u).2 ⟨r, hsu⟩)
      rw [hlock] at this
      exact absurd (Option.some.inj this).symm hut

theorem reachable_lockInv [DecidableEq α] {s0 s : ConcSystem α n}
    (h0 : LockInv s0) (hr : Reachable s0 s) : LockInv s := by
  induction hr with
  | refl => exact h0
  | tail _ hstep ih =>
    rcases hstep with ⟨t, hstep⟩
    exact step_lockInv hstep ih

theorem lockInv_mutex (s : ConcSystem α n) (hinv : LockInv s) (t1 t2 : Fin n)
    (h1 : inCritical s t1) (h2 : inCritical s t2) : t1 = t2 := by
  have e1 := hinv t1 h1
  have e2 := hinv t2 h2
  rw [e1] at e2
  exact Option.some.inj e2

theorem step_mutation [DecidableEq α] {t : Fin n} {s s' : ConcSystem α n}
    (hs : Step t s s') (hne : s'.callbacks ≠ s.callbacks) : inCritical s t := by
  cases hs with
  | acquire op hg hlock hidle => exact absurd rfl hne
  | exec a rest hg hrun => exact (inCritical_iff s t).2 ⟨_, hrun⟩
  | release hg hrun hlock => exact absurd rfl hne

/-! ## Claim theorems -/

/-- C1: a registry that starts empty and receives the subscribe calls
`h1, …, hn` in that order invokes exactly those handles, front to back, in
exactly that order; and each subscribe appends its handle at the end of the
sequence. -/
theorem subscribe_invoke_order (hs : List α) (call : α → σ → σ) (s : σ)
    (e : static_event α) (cb : α) :
    (((static_event.empty α).subscribeAll hs).invoke call s).2.2 = hs ∧
    (e.subscribe cb).callbacks = e.callbacks ++ [cb] := by
  constructor
  · rw [invoke_trace, subscribeAll_callbacks]
    rfl
  · rfl

/-- C2: if a handle `cb` occurs `k ≥ 1` times in the sequence, one
unsubscribe call removes all `k` occurrences (its count drops to 0 while any
other handle keeps its count), the remaining entries keep their relative
order (the result is a sublist of the original), and a subsequent invoke does
not call `cb`. -/
theorem unsubscribe_removes_all [DecidableEq α] (e : static_event α)
    (cb x : α) (k : Nat) (call : α → σ → σ) (s : σ)
    (_hk : e.callbacks.count cb = k) (_hk1 : 1 ≤ k) (hx : x ≠ cb) :
    (e.unsubscribe cb).callbacks.count cb = 0 ∧
    (e.unsubscribe cb).callbacks.Sublist e.callbacks ∧
    (e.unsubscribe cb).callbacks.count x = e.callbacks.count x ∧
    cb ∉ ((e.unsubscribe cb).invoke call s).2.2 := by
  refine ⟨?_, ?_, ?_, ?_⟩
  · simp [static_event.unsubscribe, List.count_eq_zero]
  · exact List.filter_sublist e.callbacks
  · simp only [static_event.unsubscribe]
    exact List.count_filter (by simp [hx])
  · rw [invoke_trace]
    simp [static_event.unsubscribe]

/-- Witness for C2 at a concrete registry. -/
theorem unsubscribe_removes_all_witness :
    ((static_event.mk [1, 2, 1]).unsubscribe 1).callbacks.count 1 = 0 ∧
    ((static_event.mk [1, 2, 1]).unsubscribe 1).callbacks.Sublist [1, 2, 1] ∧
    ((static_event.mk [1, 2, 1]).unsubscribe 1).callbacks.count 2
        = (List.count 2 [1, 2, 1]) ∧
    1 ∉ (((static_event.mk [1, 2, 1]).unsubscribe 1).invoke
        (fun _ s => s) (0 : Nat)).2.2 :=
  unsubscribe_removes_all ⟨[1, 2, 1]⟩ 1 2 2 (fun _ s => s) 0 (by decide)
    (by decide) (by decide)

/-- C3: subscribe never deduplicates: subscribing the same handle `k ≥ 1`
times adds `k` occurrences of it to the sequence, and a subsequent invoke
calls it exactly `k` more times than the original sequence would. -/
theorem subscribe_multiplicity [DecidableEq α] (e : static_event α) (cb : α)
    (k : Nat) (call : α → σ → σ) (s : σ) (_hk : 1 ≤ k) :
    (e.subscribeAll (List.replicate k cb)).callbacks.count cb
        = e.callbacks.count cb + k ∧
    ((e.subscribeAll (List.replicate k cb)).invoke call s).2.2.count cb
        = e.callbacks.count cb + k := by
  have h1 : (e.subscribeAll (List.replicate k cb)).callbacks.count cb
      = e.callbacks.count cb + k := by
    rw [subscribeAll_callbacks]
    simp [List.count_append]
  exact ⟨h1, by rw [invoke_trace]; exact h1⟩

/-- Witness for C3: subscribing handle 1 twice to the empty registry makes it
appear twice and fire twice. -/
theorem subscribe_multiplicity_witness :
    ((static_event.empty Nat).subscribeAll (List.replicate 2 1)).callbacks.count 1
        = (static_event.empty Nat).callbacks.count 1 + 2 ∧
    (((static_event.empty Nat).subscribeAll (List.replicate 2 1)).invoke
        (fun _ s => s) (0 : Nat)).2.2.count 1
        = (static_event.empty Nat).callbacks.count 1 + 2 :=
  subscribe_multiplicity (static_event.empty Nat) 1 2 (fun _ s => s) 0
    (by decide)

/-- C4: unsubscribing a handle that is not in the sequence is a no-op: the
operation returns normally (it is a total function) and the registry is
exactly unchanged. -/
theorem unsubscribe_absent_noop [DecidableEq α] (e : static_event α) (cb : α)
    (h : cb ∉ e.callbacks) : e.unsubscribe cb = e := by
  have hf : e.callbacks.filter (fun x => x ≠ cb) = e.callbacks := by
    apply List.filter_eq_self.mpr
    intro a ha
    simp only [ne_eq, decide_eq_true_eq]
    intro heq
    subst heq
    exact h ha
  show (⟨e.callbacks.filter (fun x => x ≠ cb)⟩ : static_event α) = e
  rw [hf]

/-- Witness for C4: removing the never-subscribed handle 3 leaves the
registry unchanged. -/
theorem unsubscribe_absent_noop_witness :
    (static_event.mk [1, 2]).unsubscribe 3 = static_event.mk [1, 2] :=
  unsubscribe_absent_noop ⟨[1, 2]⟩ 3 (by decide)

/-- C6: if the callbacks before `bad` all succeed and `bad` raises, the
invoke loop stops right after `bad` — its trace is exactly `pre ++ [bad]`, so
no handle subscribed after `bad` runs in that invocation — and the fault is
returned (uncaught) to the invocation site. -/
theorem callback_fault_aborts (call : α → σ → Except ε σ) (pre : List α)
    (bad : α) (post : List α) (s s' : σ) (err : ε)
    (hpre : invokeLoopE call pre s = (pre, Except.ok s'))
    (hbad : call bad s' = Except.error err) :
    invokeLoopE call (pre ++ bad :: post) s = (pre ++ [bad], Except.error err) := by
  induction pre generalizing s with
  | nil =>
    simp only [invokeLoopE] at hpre
    have hs : s = s' := by
      have := congrArg Prod.snd hpre
      simpa using this
    subst hs
    simp [invokeLoopE, hbad]
  | cons p ps ih =>
    cases hc : call p s with
    | ok s1 =>
      simp only [invokeLoopE, hc] at hpre
      have h1 : (invokeLoopE call ps s1).1 = ps := by
        have := congrArg Prod.fst hpre
        simpa using this
      have h2 : (invokeLoopE call ps s1).2 = Except.ok s' := by
        have := congrArg Prod.snd hpre
        simpa using this
      have hps : invokeLoopE call ps s1 = (ps, Except.ok s') := by
        rw [Prod.ext_iff]
        exact ⟨h1, h2⟩
      rw [List.cons_append]
      simp only [invokeLoopE, hc]
      rw [ih s1 hps]
      simp
    | error e0 =>
      simp only [invokeLoopE, hc] at hpre
      have := congrArg Prod.snd hpre
      simp at this

/-- Witness for C6: callbacks add their handle to the state, handle 9 raises
fault 7; invocation of [1, 2, 9, 3] calls 1, 2, enters 9, never reaches 3,
and returns the fault. -/
theorem callback_fault_aborts_witness :
    invokeLoopE (fun cb s => if cb = 9 then Except.error 7 else Except.ok (s + cb))
        ([1, 2] ++ 9 :: [3]) (0 : Nat) = ([1, 2] ++ [9], Except.error 7) :=
  callback_fault_aborts
    (fun cb s => if cb = 9 then Except.error 7 else Except.ok (s + cb))
    [1, 2] 9 [3] 0 3 7 rfl rfl

/-- The static and concurrent runners agree from any pair of accumulators
with the same list, state and trace. -/
theorem runOps_agree_aux [DecidableEq α] (call : α → σ → σ)
    (ops : List (EventOp α)) (l : List α) (s : σ) (tr : List α) :
    (List.foldl (static_event.applyOp call) (⟨l⟩, s, tr) ops).1.callbacks
      = (List.foldl (concurrent_static_event.applyOp call) (⟨l⟩, s, tr) ops).1.callbacks
    ∧ (List.foldl (static_event.applyOp call) (⟨l⟩, s, tr) ops).2
      = (List.foldl (concurrent_static_event.applyOp call) (⟨l⟩, s, tr) ops).2 := by
  induction ops generalizing l s tr with
  | nil => exact ⟨rfl, rfl⟩
  | cons op rest ih =>
    cases op with
    | sub cb =>
      simpa [List.foldl_cons, static_event.applyOp,
        concurrent_static_event.applyOp, static_event.subscribe,
        concurrent_static_event.subscribe] using ih (l ++ [cb]) s tr
    | unsub cb =>
      simpa [List.foldl_cons, static_event.applyOp,
        concurrent_static_event.applyOp, static_event.unsubscribe,
        concurrent_static_event.unsubscribe]
        using ih (l.filter (fun x => x ≠ cb)) s tr
    | inv =>
      simpa [List.foldl_cons, static_event.applyOp,
        concurrent_static_event.applyOp, static_event.invoke,
        concurrent_static_event.invoke]
        using ih l (invokeLoop call l s).1 (tr ++ (invokeLoop call l s).2)

/-- C7: the single-threaded and the concurrent variants have the same
external contract: any sequential sequence of subscribe / unsubscribe /
invoke operations, run on both from the empty registry, yields the same
handle sequence and the same callback invocations (same final ambient state
and same concatenated invocation trace). -/
theorem static_concurrent_equiv [DecidableEq α] (call : α → σ → σ)
    (ops : List (EventOp α)) (s : σ) :
    (static_event.runOps call ops s).1.callbacks
        = (concurrent_static_event.runOps call ops s).1.callbacks ∧
    (static_event.runOps call ops s).2
        = (concurrent_static_event.runOps call ops s).2 :=
  runOps_agree_aux call ops [] s []

/-- C8: every concurrent operation holds the single mutex for its entire
duration (acquire, then the whole body — for `operator()` the full callback
iteration — then release); hence in any reachable interleaving two threads
inside their operations' critical sections coincide (operations are
serialized), and any step that mutates the `_callbacks` vector while some
thread is mid-operation is a step of that very thread (no interleaved
mutation of the sequence is possible). -/
theorem concurrent_ops_serialized [DecidableEq α] {n : Nat}
    (s0 s s' : ConcSystem α n) (t1 t2 t' : Fin n)
    (h0 : InitState s0) (hr : Reachable s0 s)
    (h1 : inCritical s t1) (h2 : inCritical s t2)
    (hstep : Step t' s s') (hmut : s'.callbacks ≠ s.callbacks) :
    t1 = t2 ∧ t' = t1 := by
  have hinv := reachable_lockInv (initState_lockInv s0 h0) hr
  exact ⟨lockInv_mutex s hinv t1 t2 h1 h2,
    lockInv_mutex s hinv t' t1 (step_mutation hstep hmut) h1⟩

/-- Witness for C8: in the two-thread scenario, after thread 0 acquired the
mutex, the mutating `push_back` step is thread 0's own. -/
theorem concurrent_ops_serialized_witness :
    (0 : Fin 2) = 0 ∧ (0 : Fin 2) = 0 :=
  concurrent_ops_serialized demoInit demoMid demoAfter 0 0 0
    ⟨rfl, fun _ => ⟨EventOp.sub 0, rfl⟩⟩
    (Relation.ReflTransGen.single
      ⟨0, Step.acquire 0 (EventOp.sub 0) demoInit rfl rfl⟩)
    trivial
    trivial
    (Step.exec 0 (Action.pushBack 0) [] demoMid rfl)
    (by decide)

/-- C9: invoke never mutates the registry: with the callbacks acting on the
ambient state only (not re-entering the registry), the handle sequence after
`operator()` is exactly the sequence before it, in both variants. -/
theorem invoke_frame (e : static_event α) (ec : concurrent_static_event α)
    (call : α → σ → σ) (s : σ) :
    (e.invoke call s).1 = e ∧ (ec.invoke call s).1 = ec :=
  ⟨rfl, rfl⟩

/-- C10: the interface performs no handle validity check: `operator+=`
appends any handle value — in particular the null function pointer, modelled
as an arbitrary distinguished value `nullHandle` of the handle type — exactly
like any other, and the `operator()` loop reaches it with no null guard: the
trace of attempted calls contains it. -/
theorem no_null_guard (e : static_event α) (nullHandle : α)
    (call : α → σ → σ) (s : σ) (h : nullHandle ∈ e.callbacks) :
    (e.subscribe nullHandle).callbacks = e.callbacks ++ [nullHandle] ∧
    nullHandle ∈ (e.invoke call s).2.2 :=
  ⟨rfl, by rw [invoke_trace]; exact h⟩

/-- Witness for C10: handle 0 plays the null pointer. -/
theorem no_null_guard_witness :
    ((static_event.mk [0]).subscribe 0).callbacks = [0] ++ [0] ∧
    0 ∈ ((static_event.mk [0]).invoke (fun _ s => s) (0 : Nat)).2.2 :=
  no_null_guard ⟨[0]⟩ 0 (fun _ s => s) 0 (by decide)

end swe
